import Mathlib

/-!
# Samaced backend (`server.js`): a shallow embedding and its verified properties

The development follows `server.js` top to bottom: the helper functions
(`formatBalance`, `addStudentFields`), the three tables created by `initDb`
together with the seed rows, the `authMiddleware`, and the route handlers.

Modelling conventions

* A JavaScript number or SQLite `REAL` is an IEEE 754 double (`F64`): a finite
  value, held as the rational it denotes, or an infinity.  Arithmetic rounds to
  the nearest double, ties to even (`roundF64`); a JSON number literal denotes
  the double nearest to its decimal value.  The two zeros are not
  distinguished (they print and compare alike), and `NaN`, which SQLite stores
  as `NULL`, appears only as a missing result.  The definitions are total on
  all rationals; the program only ever meets doubles.
* A JavaScript string is a Lean `String` (or its `List Char`); all code points
  the program itself inspects (`'%'`, `'?'`, `"Bearer "`, white space) are in
  the Basic Multilingual Plane, so UTF-16 code units and code points agree on
  them.
* Library code that is not part of the repository (SQLite text/number
  coercions, `bcrypt`, `jsonwebtoken`, the query-string parser) appears as
  explicit parameters; the theorems hold for every choice of them.
* An `async` handler whose body throws sends no response (Express 4 does not
  catch the rejected promise); this outcome is `Outcome.threw`.
-/

namespace Samaced

/-! ## IEEE 754 doubles -/

/-- A double that is a number: a finite value or an infinity. -/
inductive F64 where
  | fin (q : ℚ)
  | inf (neg : Bool)
deriving DecidableEq

/-- The power `2 ^ e` for an integer exponent. -/
def pow2 (e : ℤ) : ℚ :=
  if 0 ≤ e then ((2 ^ e.toNat : ℕ) : ℚ) else 1 / ((2 ^ (-e).toNat : ℕ) : ℚ)

/-- Round to the nearest integer, a tie to the even one. -/
def roundHalfEven (r : ℚ) : ℤ :=
  let f := ⌊r⌋
  let d := r - f
  if d < 1 / 2 then f else if 1 / 2 < d then f + 1 else if f % 2 = 0 then f else f + 1

/-- Binary logarithm of a natural number, rounded down (`fuel` bounds the
number of halvings). -/
def log2Aux : ℕ → ℕ → ℕ
  | 0, _ => 0
  | fuel + 1, n => if n < 2 then 0 else log2Aux fuel (n / 2) + 1

/-- The position of the leading bit of `n`. -/
def natLog2 (n : ℕ) : ℕ := log2Aux n n

/-- The binary exponent of a positive rational: `2 ^ e ≤ q < 2 ^ (e + 1)`. -/
def floorLog2 (q : ℚ) : ℤ :=
  let e0 : ℤ := (natLog2 q.num.toNat : ℤ) - (natLog2 q.den : ℤ)
  if pow2 e0 ≤ q then e0 else e0 - 1

/-- Round a positive rational to binary64: 53 significant bits, exponents from
-1022 (below that the spacing stays `2 ^ -1074`), overflow to infinity. -/
def roundPos (q : ℚ) : F64 :=
  let e := max (floorLog2 q) (-1022)
  let u := pow2 (e - 52)
  let r := (roundHalfEven (q / u) : ℚ) * u
  if pow2 1024 ≤ r then .inf false else .fin r

/-- Negation. -/
def F64.neg : F64 → F64
  | .fin q => .fin (-q)
  | .inf n => .inf (!n)

/-- The double nearest to a rational (round to nearest, ties to even). -/
def roundF64 (q : ℚ) : F64 :=
  if q = 0 then .fin 0 else if 0 < q then roundPos q else (roundPos (-q)).neg

/-- Double subtraction; `none` is `NaN` (infinity minus itself). -/
def F64.sub : F64 → F64 → Option F64
  | .fin a, .fin b => some (roundF64 (a - b))
  | .fin _, .inf n => some (.inf (!n))
  | .inf n, .fin _ => some (.inf n)
  | .inf n, .inf m => if n = m then none else some (.inf n)

/-! ## JavaScript values -/

/-- The JSON values a request body field can hold (`undefined` is an absent
field).  Arrays and objects are not modelled. -/
inductive JsVal where
  | undefined
  | null
  | bool (b : Bool)
  | num (x : F64)
  | str (s : String)
deriving DecidableEq

/-- JavaScript `ToBoolean`: what `!x` and `x || y` test. -/
def JsVal.truthy : JsVal → Bool
  | .undefined => false
  | .null => false
  | .bool b => b
  | .num x => decide (x ≠ .fin 0)
  | .str s => decide (s ≠ "")

/-- JavaScript `x || d`. -/
def JsVal.orElse (x d : JsVal) : JsVal := if x.truthy then x else d

/-! ## Decimal digits and `Number.prototype.toFixed(2)` -/

/-- The character of one decimal digit. -/
def digitChar (d : ℕ) : Char := Char.ofNat (48 + d)

/-- Digits of `n`, most significant first, pushed in front of `acc`
(`fuel` bounds the number of digits). -/
def decimalAux : ℕ → ℕ → List Char → List Char
  | 0, _, acc => acc
  | fuel + 1, n, acc =>
    if n < 10 then digitChar n :: acc
    else decimalAux fuel (n / 10) (digitChar (n % 10) :: acc)

/-- The decimal representation of a natural number (`"0"` for zero). -/
def decimal (n : ℕ) : List Char := decimalAux (n + 1) n []

/-- Remove the zeros at the end of a digit string. -/
def stripTrailingZeros (l : List Char) : List Char :=
  (l.reverse.dropWhile (fun c => c == '0')).reverse

/-- One step of the search for the shortest digits: with `k` digits kept, the
two neighbours of `x` among the multiples of `10 ^ (len - k)`; a neighbour
qualifies when it rounds back to `x`, and of two qualifying ones the closer
wins, the even one on a tie. -/
def shortestAt (x : ℚ) (len k : ℕ) : Option ℕ :=
  let p : ℕ := 10 ^ (len - k)
  let lo : ℕ := ⌊x / (p : ℚ)⌋.toNat * p
  let hi : ℕ := lo + p
  let okLo := decide (roundF64 (lo : ℚ) = .fin x)
  let okHi := decide (roundF64 (hi : ℚ) = .fin x)
  if okLo && okHi then
    if x - (lo : ℚ) < (hi : ℚ) - x then some lo
    else if (hi : ℚ) - x < x - (lo : ℚ) then some hi
    else if (lo / p) % 2 = 0 then some lo else some hi
  else if okLo then some lo
  else if okHi then some hi
  else none

/-- The integer with the fewest significant digits that rounds to `x`, trying
1, 2, ... digits (17 always suffice for a double). -/
def shortestFrom (x : ℚ) (len : ℕ) : ℕ → ℕ → ℕ
  | 0, _ => ⌊x⌋.toNat
  | fuel + 1, k =>
    match shortestAt x len k with
    | some v => v
    | none => shortestFrom x len fuel (k + 1)

/-- `Number::toString` for a double `x ≥ 10^21` (ECMA-262, 6.1.6.1.20).  Such a
double is an integer and its decimal exponent is at least 21, so the result is
in exponential form `d[.ddd]e+NN`, with the shortest digits that round back to
`x`. -/
def numberToStringLarge (x : ℚ) : List Char :=
  let len := (decimal ⌊x⌋.toNat).length
  let ds := decimal (shortestFrom x len 17 1)
  let e := decimal (ds.length - 1)
  match stripTrailingZeros ds with
  | [] => ds
  | d :: rest =>
    if rest = [] then d :: 'e' :: '+' :: e
    else d :: '.' :: (rest ++ 'e' :: '+' :: e)

/-- `Number.prototype.toFixed(2)` (ECMA-262, 21.1.3.3) on a finite value:
sign, then either `ToString` for magnitudes from `10^21`, or the integer `n`
nearest to `100 * x` (the larger one on a tie), padded to three digits, with a
point before the last two. -/
def toFixedFinite (x : ℚ) : List Char :=
  let s : List Char := if x < 0 then ['-'] else []
  let x := if x < 0 then -x else x
  if (10 : ℚ) ^ 21 ≤ x then s ++ numberToStringLarge x
  else
    let n := ⌊x * 100 + 1 / 2⌋.toNat
    let m := decimal n
    let m := if m.length ≤ 2 then List.replicate (2 + 1 - m.length) '0' ++ m else m
    let k := m.length
    s ++ (m.take (k - 2) ++ '.' :: m.drop (k - 2))

/-- `Number.prototype.toFixed(2)`: an infinity prints as `ToString` gives
it. -/
def toFixed2 : F64 → List Char
  | .fin x => toFixedFinite x
  | .inf false => "Infinity".data
  | .inf true => "-Infinity".data

/-- `formatBalance(amount)`: `"₵" + Number(amount).toFixed(2)`, for a number
`amount`. -/
def formatBalance (amount : F64) : String := "₵" ++ String.mk (toFixed2 amount)

/-! ## Student rows and the student view -/

/-- A row of table `students`.  Only `name` is `NOT NULL`. -/
structure Student where
  id : ℕ
  admission_no : Option String
  name : String
  class_ : Option String
  guardian : Option String
  balance : Option F64
deriving DecidableEq

/-- The object built by `addStudentFields`. -/
structure StudentView where
  id : ℕ
  admission_no : Option String
  label : String
  value : String
  name : String
  class_ : Option String
  guardian : Option String
  balance : String
  status : String
deriving DecidableEq

/-- Template-literal rendering of a nullable text column. -/
def showNullable : Option String → String
  | none => "null"
  | some s => s

/-- `s.balance || 0`: SQL `NULL` and `0` both give `0`. -/
def balanceOrZero : Option F64 → F64
  | none => .fin 0
  | some b => if b ≠ .fin 0 then b else .fin 0

/-- `s.balance > 0`, where a `NULL` balance compares as `0`. -/
def balancePositive : Option F64 → Bool
  | none => false
  | some (.fin b) => decide (b > 0)
  | some (.inf neg) => !neg

/-- `addStudentFields(s)`. -/
def addStudentFields (s : Student) : StudentView :=
  { id := s.id
    admission_no := s.admission_no
    label := s.name ++ " (" ++ showNullable s.class_ ++ ")"
    value := s.name
    name := s.name
    class_ := s.class_
    guardian := s.guardian
    balance := formatBalance (balanceOrZero s.balance)
    status := if balancePositive s.balance then "Overdue" else "Cleared" }

/-- The output the specification describes for an amount of `n` hundredths:
the currency symbol, the decimal integer part, a point, two fraction digits. -/
def expectedFormat (n : ℕ) : String :=
  "₵" ++ String.mk (decimal (n / 100) ++ ['.', digitChar (n / 10 % 10), digitChar (n % 10)])

/-! ## The store: SQLite values, tables, the seed -/

/-- A value bound to a statement parameter or held in a column. -/
inductive SqlVal where
  | null
  | num (x : F64)
  | text (s : String)
deriving DecidableEq

/-- How `sqlite3` binds a JavaScript value: booleans become the integers 1 and
0, `null` and `undefined` become `NULL`. -/
def bind : JsVal → SqlVal
  | .undefined => .null
  | .null => .null
  | .bool b => .num (.fin (if b then 1 else 0))
  | .num x => .num x
  | .str s => .text s

/-- The text/number coercions of the SQLite engine (library code).
`textNum` is the numeric-affinity conversion used for an integer column and
for comparisons with one (the whole text read as a number, when it is well
formed); `textReal` is the same conversion for a `REAL` column, giving a
double; `textLeading` is the operand coercion of `REAL` arithmetic (the double
of the longest leading numeric part, `0` when there is none); `numText` is the
text-affinity rendering of a number.  A text that is a number as a whole has
that number as its leading numeric part (`agree`). -/
structure Engine where
  textNum : String → Option F64
  textReal : String → Option F64
  textLeading : String → F64
  numText : F64 → String
  agree : ∀ t x, textReal t = some x → textLeading t = x

/-- An engine in which no text reads as a number (used for concrete runs whose
inputs contain no text anyway). -/
def Engine.plain : Engine :=
  { textNum := fun _ => none
    textReal := fun _ => none
    textLeading := fun _ => .fin 0
    numText := fun _ => ""
    agree := fun _ _ h => by simp at h }

/-- A row of table `payments` (`created_at`, filled from the server clock, is
not modelled). -/
structure Payment where
  id : ℕ
  student_id : SqlVal
  amount : SqlVal
  method : SqlVal
  note : SqlVal
  payer_name : SqlVal
deriving DecidableEq

/-- A row of table `users`. -/
structure User where
  id : ℕ
  name : Option String
  email : Option String
  password_hash : Option String
  role : Option String
deriving DecidableEq

/-- The database: the three tables, and the connection setting
`PRAGMA foreign_keys`, which SQLite leaves off unless a statement turns it
on. -/
structure Store where
  students : List Student
  payments : List Payment
  users : List User
  foreignKeys : Bool
deriving DecidableEq

/-- The six students inserted by `initDb`, with the ids `AUTOINCREMENT` gives
them. -/
def seedStudents : List Student :=
  [ ⟨1, some "ADM001", "John Doe", some "Form 1", some "Mr. Doe", some (.fin 120)⟩,
    ⟨2, some "ADM002", "Mary Mensah", some "Form 2", some "Mrs. Mensah", some (.fin 60)⟩,
    ⟨3, some "ADM003", "Kwame Nkrumah", some "Form 3", some "Mr. Nkrumah", some (.fin 0)⟩,
    ⟨4, some "ADM004", "Ama Serwaa", some "Form 1", some "Mrs. Serwaa", some (.fin (61 / 2))⟩,
    ⟨5, some "ADM005", "Joseph Agyei", some "Form 2", some "Mr. Agyei", some (.fin 250)⟩,
    ⟨6, some "ADM006", "Rita Ofori", some "Form 3", some "Mrs. Ofori", some (.fin 10)⟩ ]

/-- The two users inserted by `initDb`; `h1` and `h2` are the two salted
results of `bcrypt.hashSync('password', 10)`. -/
def seedUsers (h1 h2 : String) : List User :=
  [ ⟨1, some "Admin", some "admin@samaced.test", some h1, some "admin"⟩,
    ⟨2, some "Clerk", some "clerk@samaced.test", some h2, some "clerk"⟩ ]

/-- The store after `initDb` on a fresh database file.  The program never
issues `PRAGMA foreign_keys = ON`. -/
def seeded (h1 h2 : String) : Store :=
  { students := seedStudents, payments := [], users := seedUsers h1 h2, foreignKeys := false }

/-- The key constraints of `students.id INTEGER PRIMARY KEY AUTOINCREMENT`:
ids are pairwise distinct and are the positive row ids the engine assigns. -/
def Store.WF (st : Store) : Prop :=
  (st.students.map (fun x => x.id)).Nodup ∧ ∀ x ∈ st.students, x.id ≠ 0

/-- Comparison `id = ?` of the integer key with a bound value: a number
matches by value, a text after numeric affinity, `NULL` never. -/
def idMatches (E : Engine) (v : SqlVal) (id : ℕ) : Bool :=
  match v with
  | .null => false
  | .num x => decide (x = .fin (id : ℚ))
  | .text t => decide (E.textNum t = some (.fin (id : ℚ)))

/-- The numeric value of an arithmetic operand (`NULL` stays `NULL`). -/
def sqlNum (E : Engine) : SqlVal → Option F64
  | .null => none
  | .num x => some x
  | .text t => some (E.textLeading t)

/-- SQL `balance - ?` on a `REAL` column: the double difference; `NULL` when
either side is `NULL` or the difference is `NaN`. -/
def sqlSub : Option F64 → Option F64 → Option F64
  | some b, some a => F64.sub b a
  | _, _ => none

/-- Column affinity on storing a value in an `INTEGER` or `REAL` column: a
text that is a number as a whole (by the column's conversion `conv`) is stored
as that number. -/
def numericAffinity (conv : String → Option F64) : SqlVal → SqlVal
  | .text t =>
    match conv t with
    | some x => .num x
    | none => .text t
  | v => v

/-- The id `AUTOINCREMENT` gives the next payment row. -/
def nextPaymentId (ps : List Payment) : ℕ := (ps.map (fun p => p.id)).foldr max 0 + 1

/-- `INSERT INTO payments (student_id,amount,method,note,payer_name) VALUES
(?,?,?,?,?)`.  With foreign keys enforced, a non-`NULL` `student_id` without a
matching student makes the statement fail (`none`). -/
def insertPayment (E : Engine) (st : Store) (sid amount method note payer : SqlVal) :
    Option Store :=
  if st.foreignKeys && (sid != .null) && !(st.students.any (fun x => idMatches E sid x.id)) then
    none
  else
    some { st with
      payments := st.payments ++ [⟨nextPaymentId st.payments, numericAffinity E.textNum sid,
        numericAffinity E.textReal amount, method, note, payer⟩] }

/-- `UPDATE students SET balance = balance - ? WHERE id=?`. -/
def updateBalance (E : Engine) (st : Store) (amount sid : SqlVal) : Store :=
  { st with
    students := st.students.map (fun x =>
      if idMatches E sid x.id then { x with balance := sqlSub x.balance (sqlNum E amount) }
      else x) }

/-- `SELECT * FROM students WHERE id=?` through `getAsync`: the first matching
row, or `undefined`. -/
def selectStudent (E : Engine) (st : Store) (sid : SqlVal) : Option Student :=
  st.students.find? (fun x => idMatches E sid x.id)

/-! ## Responses -/

/-- The `user` object of a login response. -/
structure UserInfo where
  id : ℕ
  email : Option String
  role : Option String
  name : Option String
deriving DecidableEq

/-- A decoded token payload: a JSON object of primitive values. -/
abbrev Payload := List (String × JsVal)

/-- JSON response bodies. -/
inductive Body where
  | error (msg : String)
  | students (rows : List StudentView)
  | student (row : StudentView)
  | payment (success : Bool) (student : StudentView)
  | login (token : String) (user : UserInfo)
  | claims (payload : Payload)
deriving DecidableEq

/-- An HTTP response: status code and JSON body. -/
structure Response where
  status : ℕ
  body : Body
deriving DecidableEq

/-- What a handler does with a request: it sends a response, or its body
throws and nothing is sent. -/
inductive Outcome where
  | sent (r : Response)
  | threw
deriving DecidableEq

/-! ## `POST /api/payments` -/

/-- The fields the handler reads from `req.body`. -/
structure PaymentBody where
  studentId : JsVal
  amount : JsVal
  method : JsVal
  note : JsVal
  payer_name : JsVal
deriving DecidableEq

/-- The handler of `app.post('/api/payments')`: the new store and the
outcome. -/
def postPayments (E : Engine) (st : Store) (body : PaymentBody) : Store × Outcome :=
  if !body.studentId.truthy || !body.amount.truthy then
    (st, .sent ⟨400, .error "studentId and amount required"⟩)
  else
    match insertPayment E st (bind body.studentId) (bind body.amount)
        (bind (body.method.orElse (.str "cash"))) (bind (body.note.orElse (.str "")))
        (bind (body.payer_name.orElse (.str ""))) with
    | none => (st, .threw)
    | some st1 =>
      let st2 := updateBalance E st1 (bind body.amount) (bind body.studentId)
      match selectStudent E st2 (bind body.studentId) with
      | none => (st2, .threw)
      | some student => (st2, .sent ⟨200, .payment true (addStudentFields student)⟩)

/-! ## JavaScript string helpers and SQLite `LIKE` -/

/-- ECMAScript `WhiteSpace` and `LineTerminator` code points, the characters
`String.prototype.trim` removes. -/
def isJsWhiteSpace (c : Char) : Bool :=
  let n := c.toNat
  n == 9 || n == 10 || n == 11 || n == 12 || n == 13 || n == 32 || n == 160 ||
  n == 5760 || (8192 ≤ n && n ≤ 8202) || n == 8232 || n == 8233 || n == 8239 ||
  n == 8287 || n == 12288 || n == 65279

/-- `String.prototype.trim`. -/
def jsTrim (s : List Char) : List Char :=
  ((s.dropWhile isJsWhiteSpace).reverse.dropWhile isJsWhiteSpace).reverse

/-- `q.replace(/%/g,'')`: every percent sign is removed. -/
def removePercent (q : List Char) : List Char := q.filter (fun c => c != '%')

/-- ASCII lower-casing, the case folding of `LIKE` and of Express route
matching. -/
def asciiLower (c : Char) : Char :=
  if 65 ≤ c.toNat ∧ c.toNat ≤ 90 then Char.ofNat (c.toNat + 32) else c

/-- Does `f` accept some suffix of the list (the whole list included)? -/
def anySuffix (f : List Char → Bool) : List Char → Bool
  | [] => f []
  | c :: t => f (c :: t) || anySuffix f t

/-- SQLite `text LIKE pattern` without `ESCAPE`: `%` matches any run of
characters, `_` one character, other characters themselves up to ASCII case. -/
def likeMatch : List Char → List Char → Bool
  | [], s => s.isEmpty
  | c :: p, s =>
    if c = '%' then anySuffix (likeMatch p) s
    else
      match s with
      | [] => false
      | d :: t => (c = '_' || asciiLower c = asciiLower d) && likeMatch p t

/-- `column LIKE ?` on a nullable text column (`NULL LIKE ...` is not true). -/
def likeColumn (pattern : List Char) : Option String → Bool
  | none => false
  | some s => likeMatch pattern s.data

/-- Code-point order of two strings (the `BINARY` collation). -/
def charsLe : List Char → List Char → Bool
  | [], _ => true
  | _ :: _, [] => false
  | a :: s, b :: t => a.toNat < b.toNat || (a.toNat == b.toNat && charsLe s t)

/-- Insert a row into a list ordered by name, after the rows that are not
larger. -/
def insertByName (x : Student) : List Student → List Student
  | [] => [x]
  | y :: l => if charsLe y.name.data x.name.data then y :: insertByName x l else x :: y :: l

/-- `ORDER BY name` (rows with equal names keep their table order). -/
def orderByName (l : List Student) : List Student :=
  l.reverse.foldr (fun x acc => insertByName x acc) []

/-! ## `GET /api/students`, `GET /api/students/:id` -/

/-- The two query parameters the handler reads (`undefined` when absent). -/
structure StudentsQuery where
  query : Option String
  q : Option String
deriving DecidableEq

/-- `req.query.query || req.query.q || ""`. -/
def StudentsQuery.pick (qy : StudentsQuery) : String :=
  match qy.query with
  | some a => if a ≠ "" then a else
    match qy.q with
    | some b => if b ≠ "" then b else ""
    | none => ""
  | none =>
    match qy.q with
    | some b => if b ≠ "" then b else ""
    | none => ""

/-- The handler of `app.get('/api/students')`. -/
def getStudents (st : Store) (qy : StudentsQuery) : Outcome :=
  let q := jsTrim qy.pick.data
  let rows :=
    if q = [] then (orderByName st.students).take 30
    else
      let like := '%' :: (removePercent q ++ ['%'])
      (orderByName (st.students.filter (fun x =>
        likeMatch like x.name.data || likeColumn like x.admission_no))).take 30
  .sent ⟨200, .students (rows.map addStudentFields)⟩

/-- The rows of a student-list response (none for any other outcome). -/
def Outcome.rows : Outcome → List StudentView
  | .sent ⟨_, .students rows⟩ => rows
  | _ => []

/-- The handler of `app.get('/api/students/:id')`; the route parameter is a
string. -/
def getStudentById (E : Engine) (st : Store) (id : String) : Outcome :=
  match selectStudent E st (.text id) with
  | none => .sent ⟨404, .error "Not found"⟩
  | some x => .sent ⟨200, .student (addStudentFields x)⟩

/-! ## `GET /api/typeahead` and the router layers in front of it -/

/-- `s.indexOf(c)`: the position of the first occurrence. -/
def indexOf (c : Char) : List Char → Option ℕ
  | [] => none
  | d :: t => if d = c then some 0 else (indexOf c t).map (fun i => i + 1)

/-- The text from the first `?` onward, or nothing when there is no `?`:
`req.url.indexOf('?')>-1 ? req.url.slice(req.url.indexOf('?')) : ''`. -/
def fromQuestionMark (url : List Char) : List Char :=
  match indexOf '?' url with
  | some i => url.drop i
  | none => []

/-- The URL the alias writes into `req.url`. -/
def typeaheadUrl (url : String) : String :=
  "/api/students" ++ String.mk (fromQuestionMark url.data)

/-- The path of an origin-form request URL: the text before the first `?`. -/
def pathname (url : List Char) : List Char :=
  match indexOf '?' url with
  | some i => url.take i
  | none => url

/-- The query string of a request URL: the text after the first `?`. -/
def queryString (url : List Char) : List Char :=
  match indexOf '?' url with
  | some i => url.drop (i + 1)
  | none => []

/-- Express route matching for a parameterless path: case-insensitive, with
an optional trailing slash. -/
def pathIs (route : String) (path : List Char) : Bool :=
  let l := path.map asciiLower
  l == route.data || l == route.data ++ ['/']

/-- A GET request as the router sees it: the URL and `req.query`, which is
unset on arrival. -/
structure Req where
  url : String
  query : Option StudentsQuery
deriving DecidableEq

/-- Express's `query` middleware: `req.query` is parsed from the URL only when
it is not set yet.  `parse` is the query-string parser (library code). -/
def queryMiddleware (parse : String → StudentsQuery) (req : Req) : Req :=
  match req.query with
  | some _ => req
  | none => { req with query := some (parse (String.mk (queryString req.url.data))) }

/-- The result of sending a GET request through the router. -/
inductive Dispatch where
  | handled (o : Outcome)
  | next
  | outOfFuel
deriving DecidableEq

/-- `app._router.handle(req, res)` for a GET request, up to the first two
routes: the `query` middleware, then `/api/students`, then `/api/typeahead`,
whose handler rewrites `req.url` and calls the router again.  A request for any
other path goes on to the later layers (`next`).  `fuel` bounds the nesting of
router calls. -/
def routerHandle (parse : String → StudentsQuery) (st : Store) : ℕ → Req → Dispatch
  | 0, _ => .outOfFuel
  | fuel + 1, req =>
    let req := queryMiddleware parse req
    if pathIs "/api/students" (pathname req.url.data) then
      .handled (getStudents st (req.query.getD ⟨none, none⟩))
    else if pathIs "/api/typeahead" (pathname req.url.data) then
      routerHandle parse st fuel { req with url := typeaheadUrl req.url }
    else .next

/-- A tiny query-string parser for concrete runs: it reads `q=<text>` and
nothing else. -/
def parseQOnly (qs : String) : StudentsQuery :=
  match qs.data with
  | 'q' :: '=' :: v => ⟨none, some (String.mk v)⟩
  | _ => ⟨none, none⟩

/-! ## Authentication: `POST /api/login`, `authMiddleware`, `GET /api/me` -/

/-- The functions of `bcryptjs` and `jsonwebtoken` the program calls, with the
signing secret fixed.  `verify` is `none` when `jwt.verify` throws. -/
structure AuthLib where
  compareSync : String → String → Bool
  sign : Payload → String
  verify : String → Option Payload

/-- The fields the login handler reads from `req.body`. -/
structure LoginBody where
  email : JsVal
  password : JsVal
deriving DecidableEq

/-- Comparison `email = ?` on the text column: a text parameter matches by
equality, a number through its text rendering, `NULL` never. -/
def emailMatches (E : Engine) (v : SqlVal) (col : Option String) : Bool :=
  match col, v with
  | some e, .text t => decide (e = t)
  | some e, .num q => decide (e = E.numText q)
  | _, _ => false

/-- A nullable text column as a JSON value. -/
def jsText : Option String → JsVal
  | none => .null
  | some s => .str s

/-- The object `{id, email, role, name}` signed at login. -/
def loginPayload (u : User) : Payload :=
  [("id", .num (.fin u.id)), ("email", jsText u.email), ("role", jsText u.role), ("name", jsText u.name)]

/-- The handler of `app.post('/api/login')`.  `bcrypt.compareSync` throws
unless both of its arguments are strings. -/
def postLogin (E : Engine) (L : AuthLib) (st : Store) (body : LoginBody) : Outcome :=
  match st.users.find? (fun u => emailMatches E (bind body.email) u.email) with
  | none => .sent ⟨401, .error "invalid credentials"⟩
  | some u =>
    match body.password, u.password_hash with
    | .str pw, some hash =>
      if !L.compareSync pw hash then .sent ⟨401, .error "invalid credentials"⟩
      else .sent ⟨200, .login (L.sign (loginPayload u)) ⟨u.id, u.email, u.role, u.name⟩⟩
    | _, _ => .threw

/-- `authMiddleware`: `hdr` is `req.headers.authorization`, `next` the rest of
the route, run with `req.user` set to the decoded payload. -/
def authMiddleware (L : AuthLib) (hdr : Option String) (next : Payload → Outcome) : Outcome :=
  match hdr with
  | none => .sent ⟨401, .error "Missing Authorization header"⟩
  | some h =>
    if h = "" || !("Bearer ".data.isPrefixOf h.data) then
      .sent ⟨401, .error "Missing Authorization header"⟩
    else
      match L.verify (String.mk (h.data.drop 7)) with
      | none => .sent ⟨401, .error "Invalid token"⟩
      | some user => next user

/-- The route `app.get('/api/me', authMiddleware, (req,res)=>res.json(req.user))`. -/
def getMe (L : AuthLib) (hdr : Option String) : Outcome :=
  authMiddleware L hdr (fun user => .sent ⟨200, .claims user⟩)

/-- A stand-in for the two libraries in concrete runs: a hash is "hash:"
followed by the password, and the only valid token is "token". -/
def AuthLib.sample : AuthLib :=
  { compareSync := fun pw hash => decide (hash = "hash:" ++ pw)
    sign := fun _ => "token"
    verify := fun t => if t = "token" then some [("id", .num (.fin 1))] else none }

/-! ## Runs of the server and the two store invariants -/

/-- One call of an exposed route handler, with the inputs it reads. -/
inductive Request where
  | getStudents (qy : StudentsQuery)
  | typeahead (url : String)
  | getStudent (id : String)
  | postPayments (body : PaymentBody)
  | getPayments (studentId : Option String)
  | postLogin (body : LoginBody)
  | getMe (hdr : Option String)

/-- The store after a handler has run.  Only `POST /api/payments` issues
`INSERT` or `UPDATE`; every other handler issues `SELECT` statements only (or
none), whatever it responds. -/
def step (E : Engine) (st : Store) : Request → Store
  | .getStudents _ => st
  | .typeahead _ => st
  | .getStudent _ => st
  | .postPayments body => (postPayments E st body).1
  | .getPayments _ => st
  | .postLogin _ => st
  | .getMe _ => st

/-- The stores reachable from the seeded one by calls of the handlers. -/
inductive Reachable (E : Engine) (h1 h2 : String) : Store → Prop where
  | seed : Reachable E h1 h2 (seeded h1 h2)
  | step (st : Store) (r : Request) : Reachable E h1 h2 st → Reachable E h1 h2 (step E st r)

/-- The seed balance of the student with the given id. -/
def seedBalance (id : ℕ) : Option F64 :=
  (seedStudents.find? (fun x => x.id == id)).bind (fun x => x.balance)

/-- The payment rows whose stored `student_id` is `id`, oldest first. -/
def paymentsOf (ps : List Payment) (id : ℕ) : List Payment :=
  ps.filter (fun p => decide (p.student_id = SqlVal.num (.fin (id : ℚ))))

/-- The number a stored amount stands for (`NULL` for `NULL`). -/
def amountNumber (E : Engine) : SqlVal → Option F64
  | .num x => some x
  | .text t => some (E.textLeading t)
  | .null => none

/-- The exact value of a stored amount, when it is a finite number. -/
def amountExact (E : Engine) (v : SqlVal) : ℚ :=
  match amountNumber E v with
  | some (.fin a) => a
  | _ => 0

/-- The balance the specification's formula gives: the seed balance minus the
sum of the amounts of the student's payment rows, as numbers. -/
def exactBalance (E : Engine) (ps : List Payment) (id : ℕ) : Option F64 :=
  match seedBalance id with
  | some (.fin b0) =>
    some (.fin (b0 - ((paymentsOf ps id).map (fun p => amountExact E p.amount)).sum))
  | other => other

/-- Balance invariant as the specification words it: each stored balance is
the seed balance minus the sum of the student's payment amounts. -/
def ExactBalanceInvariant (E : Engine) (st : Store) : Prop :=
  ∀ x ∈ st.students, x.balance = exactBalance E st.payments x.id

/-- Subtract the amounts one after another, each difference rounded to a
double (`NULL` once an operand is `NULL` or a difference is `NaN`). -/
def decrementAll (b : Option F64) (amounts : List (Option F64)) : Option F64 :=
  amounts.foldl (fun acc a => acc.bind (fun v => a.bind (fun w => F64.sub v w))) b

/-- Balance invariant of the running decrement: each stored balance is the seed
balance with the amounts of the student's payment rows subtracted one after
another, oldest first. -/
def RunningBalanceInvariant (E : Engine) (st : Store) : Prop :=
  ∀ x ∈ st.students,
    x.balance = decrementAll (seedBalance x.id)
      ((paymentsOf st.payments x.id).map (fun p => amountNumber E p.amount))

/-- No subtraction of the running decrement rounds: every difference is itself
a double. -/
def exactRun : ℚ → List ℚ → Bool
  | _, [] => true
  | b, a :: l => decide (roundF64 (b - a) = .fin (b - a)) && exactRun (b - a) l

/-- Referential invariant: every payment row's `student_id` is the id of a
student row. -/
def ReferentialInvariant (E : Engine) (st : Store) : Prop :=
  ∀ p ∈ st.payments, ∃ x ∈ st.students, idMatches E p.student_id x.id = true


/-! ## Facts about rounding to a double -/

theorem log2Aux_spec (fuel n : ℕ) (h1 : 1 ≤ n) (h2 : n ≤ fuel) :
    2 ^ log2Aux fuel n ≤ n ∧ n < 2 ^ (log2Aux fuel n + 1) := by
  induction fuel generalizing n with
  | zero => omega
  | succ f ih =>
    simp only [log2Aux]
    by_cases h : n < 2
    · simp only [h, if_true]
      omega
    · simp only [h, if_false]
      obtain ⟨ha, hb⟩ := ih (n / 2) (by omega) (by omega)
      constructor
      · rw [pow_succ]; omega
      · rw [pow_succ]; omega

theorem natLog2_spec (n : ℕ) (h : 1 ≤ n) :
    2 ^ natLog2 n ≤ n ∧ n < 2 ^ (natLog2 n + 1) :=
  log2Aux_spec n n h le_rfl

theorem pow2_eq_zpow (e : ℤ) : pow2 e = (2 : ℚ) ^ e := by
  unfold pow2
  split
  · rename_i h
    have : e = (e.toNat : ℤ) := (Int.toNat_of_nonneg h).symm
    conv_rhs => rw [this]
    rw [zpow_natCast]
    push_cast
    rfl
  · rename_i h
    have h' : 0 ≤ -e := by omega
    have : e = -((-e).toNat : ℤ) := by rw [Int.toNat_of_nonneg h']; ring
    conv_rhs => rw [this]
    rw [zpow_neg, zpow_natCast]
    push_cast
    rw [one_div]

theorem pow2_pos (e : ℤ) : 0 < pow2 e := by
  rw [pow2_eq_zpow]
  positivity

theorem pow2_mono {a b : ℤ} (h : a ≤ b) : pow2 a ≤ pow2 b := by
  rw [pow2_eq_zpow, pow2_eq_zpow]
  exact zpow_le_zpow_right₀ (by norm_num) h

theorem floorLog2_le (q : ℚ) (hq : 0 < q) : pow2 (floorLog2 q) ≤ q := by
  unfold floorLog2
  simp only
  split
  · assumption
  · have hnum : 0 < q.num := Rat.num_pos.mpr hq
    have hden : 1 ≤ q.den := q.den_pos
    have hn1 : 1 ≤ q.num.toNat := by omega
    obtain ⟨ha, _⟩ := natLog2_spec q.num.toNat hn1
    obtain ⟨_, hb⟩ := natLog2_spec q.den hden
    have hcast : ((q.num.toNat : ℕ) : ℚ) = (q.num : ℚ) := by
      have : ((q.num.toNat : ℕ) : ℤ) = q.num := Int.toNat_of_nonneg hnum.le
      exact_mod_cast this
    have hqeq : q = (q.num.toNat : ℚ) / (q.den : ℚ) := by
      rw [hcast]; exact (Rat.num_div_den q).symm
    have haq : ((2 : ℚ) ^ natLog2 q.num.toNat) ≤ (q.num.toNat : ℚ) := by exact_mod_cast ha
    have hbq : (q.den : ℚ) ≤ (2 : ℚ) ^ (natLog2 q.den + 1) := by exact_mod_cast hb.le
    have hdpos : (0 : ℚ) < q.den := by exact_mod_cast hden
    rw [pow2_eq_zpow]
    have e1 : ((natLog2 q.num.toNat : ℤ) - (natLog2 q.den : ℤ) - 1) =
        (natLog2 q.num.toNat : ℤ) - ((natLog2 q.den + 1 : ℕ) : ℤ) := by push_cast; ring
    rw [e1, zpow_sub₀ (by norm_num : (2 : ℚ) ≠ 0), zpow_natCast, zpow_natCast]
    have hp : (0 : ℚ) < (2 : ℚ) ^ (natLog2 q.den + 1) := by positivity
    have key : (2 : ℚ) ^ natLog2 q.num.toNat / (2 : ℚ) ^ (natLog2 q.den + 1) ≤
        (q.num.toNat : ℚ) / (q.den : ℚ) := by
      rw [div_le_div_iff₀ hp hdpos]
      calc (2 : ℚ) ^ natLog2 q.num.toNat * (q.den : ℚ)
          ≤ (q.num.toNat : ℚ) * (q.den : ℚ) := by
            exact mul_le_mul_of_nonneg_right haq hdpos.le
        _ ≤ (q.num.toNat : ℚ) * (2 : ℚ) ^ (natLog2 q.den + 1) := by
            exact mul_le_mul_of_nonneg_left hbq (by positivity)
    exact le_trans key (le_of_eq hqeq.symm)

theorem roundHalfEven_near (r : ℚ) :
    |(roundHalfEven r : ℚ) - r| ≤ 1 / 2 ∧ (0 ≤ r → 0 ≤ roundHalfEven r) := by
  have h1 : (⌊r⌋ : ℚ) ≤ r := Int.floor_le r
  have h2 : r < (⌊r⌋ : ℚ) + 1 := Int.lt_floor_add_one r
  have hf : 0 ≤ r → 0 ≤ ⌊r⌋ := fun h => Int.floor_nonneg.mpr h
  unfold roundHalfEven
  simp only
  split
  · rename_i h
    refine ⟨?_, hf⟩
    rw [abs_le]; constructor <;> linarith
  · split
    · rename_i h
      refine ⟨?_, fun h0 => by have := hf h0; omega⟩
      push_cast
      rw [abs_le]; constructor <;> linarith
    · rename_i ha hb
      have hd : r - ⌊r⌋ = 1 / 2 := le_antisymm (not_lt.mp hb) (not_lt.mp ha)
      split
      · refine ⟨?_, hf⟩
        rw [abs_le]; constructor <;> linarith
      · refine ⟨?_, fun h0 => by have := hf h0; omega⟩
        push_cast
        rw [abs_le]; constructor <;> linarith

/-- Below `2 ^ 46` a non-negative number and its double differ by at most
`2 ^ -8`. -/
theorem roundF64_near (q : ℚ) (h0 : 0 ≤ q) (h : q < 2 ^ 46) :
    ∃ r, roundF64 q = .fin r ∧ 0 ≤ r ∧ |r - q| ≤ 1 / 256 := by
  by_cases hq : q = 0
  · exact ⟨0, by simp [roundF64, hq], le_rfl, by simp [hq]⟩
  have hpos : 0 < q := lt_of_le_of_ne h0 (Ne.symm hq)
  have he : max (floorLog2 q) (-1022) ≤ 45 := by
    apply max_le _ (by norm_num)
    by_contra hc
    have hc' : (46 : ℤ) ≤ floorLog2 q := by omega
    have := le_trans (pow2_mono hc') (floorLog2_le q hpos)
    rw [pow2_eq_zpow] at this
    norm_num at this
    linarith
  have hu : pow2 (max (floorLog2 q) (-1022) - 52) ≤ 1 / 128 := by
    have := pow2_mono (show max (floorLog2 q) (-1022) - 52 ≤ -7 by omega)
    rw [pow2_eq_zpow (-7)] at this
    norm_num at this
    linarith
  have hupos := pow2_pos (max (floorLog2 q) (-1022) - 52)
  obtain ⟨hnear, hnn⟩ :=
    roundHalfEven_near (q / pow2 (max (floorLog2 q) (-1022) - 52))
  have hm0 : (0 : ℚ) ≤ (roundHalfEven (q / pow2 (max (floorLog2 q) (-1022) - 52)) : ℚ) := by
    exact_mod_cast hnn (div_nonneg h0 hupos.le)
  have hdist : |(roundHalfEven (q / pow2 (max (floorLog2 q) (-1022) - 52)) : ℚ) *
      pow2 (max (floorLog2 q) (-1022) - 52) - q| ≤ 1 / 256 := by
    have e : (roundHalfEven (q / pow2 (max (floorLog2 q) (-1022) - 52)) : ℚ) *
        pow2 (max (floorLog2 q) (-1022) - 52) - q =
        ((roundHalfEven (q / pow2 (max (floorLog2 q) (-1022) - 52)) : ℚ) -
          q / pow2 (max (floorLog2 q) (-1022) - 52)) *
          pow2 (max (floorLog2 q) (-1022) - 52) := by
      field_simp
    rw [e, abs_mul, abs_of_pos hupos]
    calc _ ≤ (1 / 2 : ℚ) * (1 / 128) :=
          mul_le_mul hnear hu hupos.le (by norm_num)
      _ = 1 / 256 := by norm_num
  have hbig : ¬ (pow2 1024 ≤ (roundHalfEven (q / pow2 (max (floorLog2 q) (-1022) - 52)) : ℚ) *
      pow2 (max (floorLog2 q) (-1022) - 52)) := by
    intro hc
    have h47 : pow2 47 ≤ pow2 1024 := pow2_mono (by norm_num)
    rw [pow2_eq_zpow 47] at h47
    have := (abs_le.mp hdist).2
    norm_num at h47
    linarith
  refine ⟨_, ?_, mul_nonneg hm0 hupos.le, hdist⟩
  simp only [roundF64, hq, if_false, hpos, if_true, roundPos, hbig]

/-! ## Facts about decimal digits and `toFixed2` -/

theorem decimalAux_acc (fuel n : ℕ) (acc : List Char) :
    decimalAux fuel n acc = decimalAux fuel n [] ++ acc := by
  induction fuel generalizing n acc with
  | zero => simp [decimalAux]
  | succ f ih =>
    simp only [decimalAux]
    split
    · simp
    · rw [ih (n / 10) (digitChar (n % 10) :: acc), ih (n / 10) [digitChar (n % 10)]]
      simp

theorem decimalAux_fuel (f1 f2 n : ℕ) (h1 : n < f1) (h2 : n < f2) :
    decimalAux f1 n [] = decimalAux f2 n [] := by
  induction f1 generalizing n f2 with
  | zero => omega
  | succ f ih =>
    cases f2 with
    | zero => omega
    | succ g =>
      simp only [decimalAux]
      split
      · rfl
      · rw [decimalAux_acc f, decimalAux_acc g, ih g (n / 10) (by omega) (by omega)]

theorem decimal_lt_ten (n : ℕ) (h : n < 10) : decimal n = [digitChar n] := by
  simp [decimal, decimalAux, h]

theorem decimal_step (n : ℕ) (h : 10 ≤ n) :
    decimal n = decimal (n / 10) ++ [digitChar (n % 10)] := by
  have h' : ¬ n < 10 := by omega
  have e : decimalAux (n + 1) n [] = decimalAux n (n / 10) [digitChar (n % 10)] := by
    simp [decimalAux, h']
  unfold decimal
  rw [e, decimalAux_acc, decimalAux_fuel n (n / 10 + 1) (n / 10) (by omega) (by omega)]

theorem decimal_ne_nil (n : ℕ) : decimal n ≠ [] := by
  by_cases h : n < 10
  · simp [decimal_lt_ten n h]
  · rw [decimal_step n (by omega)]; simp

theorem decimal_hundred (n : ℕ) (h : 100 ≤ n) :
    decimal n = decimal (n / 100) ++ [digitChar (n / 10 % 10), digitChar (n % 10)] := by
  rw [decimal_step n (by omega), decimal_step (n / 10) (by omega), Nat.div_div_eq_div_mul]
  simp

/-- `toFixedFinite` on a non-negative value below `10^21` whose hundredfold
is within a half of `n`. -/
theorem toFixedFinite_near (x : ℚ) (n : ℕ) (h0 : 0 ≤ x) (hb : x < 10 ^ 21)
    (hl : (n : ℚ) - 1 / 2 ≤ x * 100) (hu : x * 100 < (n : ℚ) + 1 / 2) :
    toFixedFinite x =
      decimal (n / 100) ++ ['.', digitChar (n / 10 % 10), digitChar (n % 10)] := by
  have hpos : ¬ (x < 0) := not_lt.mpr h0
  have hbig : ¬ ((10 : ℚ) ^ 21 ≤ x) := not_le.mpr hb
  have hfloor : ⌊x * 100 + 1 / 2⌋.toNat = n := by
    have h : ⌊x * 100 + 1 / 2⌋ = (n : ℤ) := by
      rw [Int.floor_eq_iff]
      constructor
      · push_cast; linarith
      · push_cast; linarith
    rw [h]; simp
  simp only [toFixedFinite, hpos, if_false, hbig, hfloor, List.nil_append]
  by_cases h10 : n < 10
  · have e1 : n / 100 = 0 := by omega
    have e2 : n / 10 % 10 = 0 := by omega
    have e3 : n % 10 = n := by omega
    rw [decimal_lt_ten n h10, e1, e2, e3]
    simp [decimal, decimalAux, digitChar]
  · by_cases h100 : n < 100
    · have e1 : n / 100 = 0 := by omega
      have e2 : n / 10 % 10 = n / 10 := by omega
      rw [decimal_step n (by omega), decimal_lt_ten (n / 10) (by omega), e1, e2]
      simp [decimal, decimalAux, digitChar]
    · have hne := decimal_ne_nil (n / 100)
      have hlen : 0 < (decimal (n / 100)).length := List.length_pos.mpr hne
      rw [decimal_hundred n (by omega)]
      have hl : ¬ ((decimal (n / 100) ++ [digitChar (n / 10 % 10), digitChar (n % 10)]).length ≤ 2) := by
        rw [List.length_append]
        simp only [List.length_cons, List.length_nil]
        omega
      simp only [hl, if_false]
      have hk : (decimal (n / 100) ++ [digitChar (n / 10 % 10), digitChar (n % 10)]).length - 2
          = (decimal (n / 100)).length := by simp
      rw [hk, List.take_left, List.drop_left]

/-- The model against doubles the program has been run on: `0.1`, `1e23`,
`2^53 + 1`, and the printing of `2^70` and of `1e23`. -/
theorem double_checks :
    roundF64 (1 / 10) = .fin (3602879701896397 / 2 ^ 55) ∧
    roundF64 (10 ^ 23) = .fin 99999999999999991611392 ∧
    roundF64 9007199254740993 = .fin 9007199254740992 ∧
    roundF64 (2 ^ 1024) = .inf false ∧
    formatBalance (.fin (2 ^ 70)) = "₵1.1805916207174113e+21" ∧
    formatBalance (roundF64 (10 ^ 23)) = "₵1e+23" ∧
    formatBalance (roundF64 9007199254740993) = "₵9007199254740992.00" := by
  decide!

/-! ## Claims about the formatting helpers -/

/-- C6: for every student record with a numeric balance `b`, `addStudentFields`
gives status "Overdue" when `b > 0` and status "Cleared" when `b ≤ 0`
(negative, overpaid balances included); an infinite balance is "Overdue" when
positive and "Cleared" when negative. -/
theorem C6_status (s : Student) (b : ℚ) (hb : s.balance = some (.fin b)) :
    (0 < b → (addStudentFields s).status = "Overdue") ∧
    (b ≤ 0 → (addStudentFields s).status = "Cleared") ∧
    (∀ t : Student, t.balance = some (.inf false) → (addStudentFields t).status = "Overdue") ∧
    (∀ t : Student, t.balance = some (.inf true) → (addStudentFields t).status = "Cleared") := by
  refine ⟨?_, ?_, ?_, ?_⟩
  · intro h
    simp [addStudentFields, balancePositive, hb, h]
  · intro h
    have : ¬ (0 < b) := not_lt.mpr h
    simp [addStudentFields, balancePositive, hb, this]
  · intro t ht
    simp [addStudentFields, balancePositive, ht]
  · intro t ht
    simp [addStudentFields, balancePositive, ht]

/-- C6 on two records: a balance of 120 is "Overdue", an overpaid balance of
-5 is "Cleared". -/
theorem C6_status_witness :
    (addStudentFields ⟨1, some "ADM001", "John Doe", some "Form 1", some "Mr. Doe",
      some (.fin 120)⟩).status = "Overdue" ∧
    (addStudentFields ⟨1, some "ADM001", "John Doe", some "Form 1", some "Mr. Doe",
      some (.fin (-5))⟩).status = "Cleared" :=
  ⟨(C6_status ⟨1, some "ADM001", "John Doe", some "Form 1", some "Mr. Doe", some (.fin 120)⟩ 120
      rfl).1 (by norm_num),
   (C6_status ⟨1, some "ADM001", "John Doe", some "Form 1", some "Mr. Doe", some (.fin (-5))⟩ (-5)
      rfl).2.1 (by norm_num)⟩

/-- C7 (as stated) fails twice.  The amount `1e21` is printed in exponential
form, "₵1e+21".  The amount `70368744177664.01` is the double
`70368744177664.015625` (doubles are `2^-6` apart there), which `toFixed(2)`
prints as "₵70368744177664.02". -/
theorem C7_counterexample :
    formatBalance (roundF64 (((10 ^ 23 : ℕ) : ℚ) / 100)) = "₵1e+21" ∧
    expectedFormat (10 ^ 23) = "₵1000000000000000000000.00" ∧
    formatBalance (roundF64 (((10 ^ 23 : ℕ) : ℚ) / 100)) ≠ expectedFormat (10 ^ 23) ∧
    roundF64 (((7036874417766401 : ℕ) : ℚ) / 100) = .fin (70368744177664 + 1 / 64) ∧
    formatBalance (roundF64 (((7036874417766401 : ℕ) : ℚ) / 100)) = "₵70368744177664.02" ∧
    expectedFormat 7036874417766401 = "₵70368744177664.01" := by
  decide!

/-- C7 (amended): for every non-negative amount of at most `2^46`
(70368744177664) with at most two decimal places, that is the double nearest to
`n / 100` with `n ≤ 100 * 2^46`, `formatBalance` is "₵", the decimal integer
part `n / 100`, a point and exactly the two fraction digits of `n`, so the
value is preserved; 120 gives "₵120.00" and 30.5 gives "₵30.50". -/
theorem C7_formatBalance (n : ℕ) (h : n ≤ 100 * 2 ^ 46) :
    formatBalance (roundF64 ((n : ℚ) / 100)) = expectedFormat n ∧
    n = 100 * (n / 100) + 10 * (n / 10 % 10) + n % 10 := by
  refine ⟨?_, by omega⟩
  by_cases htop : n = 100 * 2 ^ 46
  · subst htop
    decide!
  have hlt : n < 100 * 2 ^ 46 := lt_of_le_of_ne h htop
  have hq0 : (0 : ℚ) ≤ (n : ℚ) / 100 := by positivity
  have hq : (n : ℚ) / 100 < 2 ^ 46 := by
    have : (n : ℚ) < 100 * 2 ^ 46 := by exact_mod_cast hlt
    linarith
  obtain ⟨r, hr, hr0, hnear⟩ := roundF64_near ((n : ℚ) / 100) hq0 hq
  obtain ⟨h1, h2⟩ := abs_le.mp hnear
  have hfix := toFixedFinite_near r n hr0 (by norm_num at hq ⊢; linarith)
    (by linarith) (by linarith)
  simp only [formatBalance, expectedFormat, hr, toFixed2, hfix]

/-- C7 (amended) at 30.5, that is 3050 hundredths: the result is "₵30.50"; and
120 gives "₵120.00". -/
theorem C7_formatBalance_witness :
    formatBalance (roundF64 (((3050 : ℕ) : ℚ) / 100)) = expectedFormat 3050 ∧
    expectedFormat 3050 = "₵30.50" ∧ formatBalance (roundF64 (61 / 2)) = "₵30.50" ∧
    formatBalance (roundF64 120) = "₵120.00" :=
  ⟨(C7_formatBalance 3050 (by norm_num)).1, by decide, by decide!, by decide!⟩

/-! ## Facts about the store operations -/

theorem find_unique {α : Type} (p : α → Bool) (l : List α) (a : α) (ha : a ∈ l)
    (hp : p a = true) (hu : ∀ x ∈ l, p x = true → x = a) : l.find? p = some a := by
  induction l with
  | nil => simp at ha
  | cons y t ih =>
    by_cases hy : p y = true
    · have : y = a := hu y (by simp) hy
      subst this
      simp [List.find?, hy]
    · have hy' : p y = false := by simpa using hy
      have hat : a ∈ t := by
        rcases List.mem_cons.mp ha with h | h
        · rw [h] at hp; rw [hp] at hy; exact absurd rfl hy
        · exact h
      simp only [List.find?, hy']
      exact ih hat (fun x hx => hu x (List.mem_cons_of_mem _ hx))

theorem truthy_bind_ne_null (v : JsVal) (h : v.truthy = true) : bind v ≠ .null := by
  cases v <;> simp [JsVal.truthy, bind] at h ⊢

theorem sqlSub_eq_bind (o1 o2 : Option F64) :
    sqlSub o1 o2 = o1.bind (fun v => o2.bind (fun w => F64.sub v w)) := by
  cases o1 <;> cases o2 <;> rfl

/-- The `UPDATE` matches a student exactly when the stored `student_id` of the
inserted row is that student's id. -/
theorem idMatches_affinity (E : Engine) (v : SqlVal) (id : ℕ) :
    idMatches E v id = decide (numericAffinity E.textNum v = SqlVal.num (.fin (id : ℚ))) := by
  cases v with
  | null => simp [idMatches, numericAffinity]
  | num x => simp [idMatches, numericAffinity]
  | text t =>
    cases h : E.textNum t with
    | none => simp [idMatches, numericAffinity, h]
    | some y => simp [idMatches, numericAffinity, h]

/-- The operand of the `UPDATE` is the number the stored amount stands for. -/
theorem sqlNum_affinity (E : Engine) (v : SqlVal) :
    sqlNum E v = amountNumber E (numericAffinity E.textReal v) := by
  cases v with
  | null => rfl
  | num x => rfl
  | text t =>
    cases h : E.textReal t with
    | none => simp [sqlNum, numericAffinity, h, amountNumber]
    | some y => simp [sqlNum, numericAffinity, h, amountNumber, E.agree t y h]

theorem paymentsOf_append (ps : List Payment) (p : Payment) (id : ℕ) :
    paymentsOf (ps ++ [p]) id =
      paymentsOf ps id ++ (if p.student_id = SqlVal.num (.fin (id : ℚ)) then [p] else []) := by
  unfold paymentsOf
  rw [List.filter_append]
  by_cases h : p.student_id = SqlVal.num (.fin (id : ℚ)) <;> simp [List.filter, h]

theorem decrementAll_append (b : Option F64) (l : List (Option F64)) (a : Option F64) :
    decrementAll b (l ++ [a]) = sqlSub (decrementAll b l) a := by
  simp [decrementAll, List.foldl_append, sqlSub_eq_bind]

/-- What `POST /api/payments` does to the store once both fields are truthy:
nothing when the insert fails, else one new row and the balance update. -/
theorem postPayments_store (E : Engine) (st : Store) (body : PaymentBody)
    (h1 : body.studentId.truthy = true) (h2 : body.amount.truthy = true) :
    (postPayments E st body).1 = st ∨
    (postPayments E st body).1 =
      { st with
        payments := st.payments ++ [⟨nextPaymentId st.payments,
          numericAffinity E.textNum (bind body.studentId),
          numericAffinity E.textReal (bind body.amount),
          bind (body.method.orElse (.str "cash")),
          bind (body.note.orElse (.str "")), bind (body.payer_name.orElse (.str ""))⟩]
        students := st.students.map (fun x =>
          if idMatches E (bind body.studentId) x.id then
            { x with balance := sqlSub x.balance (sqlNum E (bind body.amount)) }
          else x) } := by
  unfold postPayments
  simp only [h1, h2, Bool.not_true, Bool.or_self, Bool.false_eq_true, if_false]
  by_cases hc : (st.foreignKeys && (bind body.studentId != .null) &&
      !(st.students.any (fun x => idMatches E (bind body.studentId) x.id))) = true
  · left
    simp only [insertPayment, hc, if_true]
  · right
    simp only [insertPayment, hc, if_false, updateBalance, Bool.false_eq_true]
    split <;> rfl

theorem postPayments_falsy (E : Engine) (st : Store) (body : PaymentBody)
    (h : body.studentId.truthy = false ∨ body.amount.truthy = false) :
    postPayments E st body = (st, .sent ⟨400, .error "studentId and amount required"⟩) := by
  unfold postPayments
  rcases h with h | h <;> simp [h]

theorem seed_balances : ∀ x ∈ seedStudents, x.balance = seedBalance x.id := by
  decide!

theorem runningInvariant_seeded (E : Engine) (h1 h2 : String) :
    RunningBalanceInvariant E (seeded h1 h2) := by
  intro x hx
  have : (paymentsOf (seeded h1 h2).payments x.id) = [] := rfl
  rw [this]
  exact seed_balances x hx

theorem runningInvariant_step (E : Engine) (st : Store) (r : Request)
    (hinv : RunningBalanceInvariant E st) : RunningBalanceInvariant E (step E st r) := by
  cases r with
  | postPayments body =>
    simp only [step]
    by_cases h1 : body.studentId.truthy = true
    · by_cases h2 : body.amount.truthy = true
      · rcases postPayments_store E st body h1 h2 with h | h
        · rw [h]; exact hinv
        · rw [h]
          intro x hx
          simp only [List.mem_map] at hx
          obtain ⟨y, hy, rfl⟩ := hx
          have hy' := hinv y hy
          by_cases hm : idMatches E (bind body.studentId) y.id = true
          · have hm' : numericAffinity E.textNum (bind body.studentId) = SqlVal.num (.fin (y.id : ℚ)) := by
              rw [idMatches_affinity] at hm
              exact of_decide_eq_true hm
            simp only [hm, if_true, paymentsOf_append, hm', List.map_append, List.map_cons,
              List.map_nil, decrementAll_append, ← hy', sqlNum_affinity]
          · have hm0 : idMatches E (bind body.studentId) y.id = false := by simpa using hm
            have hm' : ¬ numericAffinity E.textNum (bind body.studentId) = SqlVal.num (.fin (y.id : ℚ)) := by
              rw [idMatches_affinity] at hm0
              exact of_decide_eq_false hm0
            simp only [hm0, Bool.false_eq_true, if_false, paymentsOf_append, hm',
              List.append_nil]
            exact hy'
      · have h2' : body.amount.truthy = false := by simpa using h2
        rw [postPayments_falsy E st body (Or.inr h2')]; exact hinv
    · have h1' : body.studentId.truthy = false := by simpa using h1
      rw [postPayments_falsy E st body (Or.inl h1')]; exact hinv
  | getStudents _ => exact hinv
  | typeahead _ => exact hinv
  | getStudent _ => exact hinv
  | getPayments _ => exact hinv
  | postLogin _ => exact hinv
  | getMe _ => exact hinv

/-- When no subtraction rounds, the running decrement is the seed balance minus
the sum of the amounts. -/
theorem decrementAll_exact (b : ℚ) (l : List ℚ) (h : exactRun b l = true) :
    decrementAll (some (.fin b)) (l.map (fun a => some (.fin a))) = some (.fin (b - l.sum)) := by
  induction l generalizing b with
  | nil => simp [decrementAll]
  | cons a t ih =>
    simp only [exactRun, Bool.and_eq_true, decide_eq_true_eq] at h
    obtain ⟨ha, ht⟩ := h
    have := ih (b - a) ht
    simp only [decrementAll, List.map_cons, List.foldl_cons, Option.bind, F64.sub, ha,
      List.sum_cons] at this ⊢
    rw [this]
    congr 2
    ring

theorem step_student_ids (E : Engine) (st : Store) (r : Request) :
    (step E st r).students.map (fun x => x.id) = st.students.map (fun x => x.id) := by
  cases r with
  | postPayments body =>
    simp only [step]
    by_cases h1 : body.studentId.truthy = true
    · by_cases h2 : body.amount.truthy = true
      · rcases postPayments_store E st body h1 h2 with h | h
        · rw [h]
        · rw [h]
          simp only [List.map_map]
          apply List.map_congr_left
          intro x _
          simp only [Function.comp]
          split <;> rfl
      · have h2' : body.amount.truthy = false := by simpa using h2
        rw [postPayments_falsy E st body (Or.inr h2')]
    · have h1' : body.studentId.truthy = false := by simpa using h1
      rw [postPayments_falsy E st body (Or.inl h1')]
  | getStudents _ => rfl
  | typeahead _ => rfl
  | getStudent _ => rfl
  | getPayments _ => rfl
  | postLogin _ => rfl
  | getMe _ => rfl

/-- Every reachable store satisfies the key constraints `Store.WF`. -/
theorem reachable_wf (E : Engine) (h1 h2 : String) (st : Store)
    (h : Reachable E h1 h2 st) : st.WF := by
  have key : st.students.map (fun x => x.id) = seedStudents.map (fun x => x.id) := by
    induction h with
    | seed => rfl
    | step st r _ ih => rw [step_student_ids, ih]
  have hseed : (seedStudents.map (fun x => x.id)).Nodup ∧
      ∀ i ∈ seedStudents.map (fun x => x.id), i ≠ 0 := by decide
  unfold Store.WF
  rw [key]
  refine ⟨hseed.1, fun x hx => hseed.2 x.id ?_⟩
  rw [← key]
  exact List.mem_map_of_mem _ hx

/-! ## Claims about `POST /api/payments` and the store invariants -/

/-- C1: in a store that holds a student `stu` with id `s` and balance `b`, a
`POST /api/payments` body with `studentId = s`, a non-zero number `a` as amount
and no method, note or payer_name adds exactly one payment row (student_id `s`,
amount `a`, method "cash", note "" and payer_name ""), sets that student's
balance to the double difference `b - a` and leaves every other student row as
it was, and responds with `success: true` and the student view, whose balance
is `formatBalance` of that difference; for finite `b` and `a` the difference is
the double nearest to the exact one. -/
theorem C1_record_payment (E : Engine) (st : Store) (stu : Student) (s : ℕ) (b a : F64)
    (hwf : st.WF) (hmem : stu ∈ st.students) (hid : stu.id = s)
    (hbal : stu.balance = some b) (ha : a ≠ .fin 0) :
    postPayments E st ⟨.num (.fin s), .num a, .undefined, .undefined, .undefined⟩ =
      ({ st with
          payments := st.payments ++
            [⟨nextPaymentId st.payments, .num (.fin s), .num a, .text "cash", .text "",
              .text ""⟩]
          students := st.students.map (fun x =>
            if x.id = s then { x with balance := F64.sub b a } else x) },
        .sent ⟨200, .payment true (addStudentFields { stu with balance := F64.sub b a })⟩) ∧
    (∀ d, F64.sub b a = some d →
      (addStudentFields { stu with balance := F64.sub b a }).balance = formatBalance d) ∧
    (∀ p q : ℚ, b = .fin p → a = .fin q → F64.sub b a = some (roundF64 (p - q))) := by
  obtain ⟨hnd, hpos⟩ := hwf
  have hs0 : s ≠ 0 := hid ▸ hpos stu hmem
  have hsq : (F64.fin (s : ℚ)) ≠ .fin 0 := by
    intro h
    injection h with h
    exact hs0 (by exact_mod_cast h)
  have hcast : ∀ i : ℕ, (F64.fin (s : ℚ) = F64.fin (i : ℚ)) ↔ s = i := by
    intro i
    constructor
    · intro h
      injection h with h
      exact_mod_cast h
    · intro h
      rw [h]
  have huniq : ∀ x ∈ st.students, x.id = s → x = stu := fun x hx hxs =>
    List.inj_on_of_nodup_map hnd hx hmem (by rw [hxs, hid])
  have hany : (st.students.any (fun x => idMatches E (.num (.fin s)) x.id)) = true := by
    rw [List.any_eq_true]
    exact ⟨stu, hmem, by simp [idMatches, hid]⟩
  have hmap : st.students.map (fun x =>
        if idMatches E (.num (.fin (s : ℚ))) x.id then
          { x with balance := sqlSub x.balance (sqlNum E (.num a)) }
        else x) =
      st.students.map (fun x => if x.id = s then { x with balance := F64.sub b a } else x) := by
    apply List.map_congr_left
    intro x hx
    by_cases hxs : x.id = s
    · have := huniq x hx hxs
      subst this
      simp [idMatches, hxs, hbal, sqlSub, sqlNum]
    · have : ¬ (s = x.id) := fun h => hxs h.symm
      simp [idMatches, hxs, this, hcast]
  have hfind : (st.students.map (fun x =>
        if x.id = s then { x with balance := F64.sub b a } else x)).find?
        (fun x => idMatches E (.num (.fin (s : ℚ))) x.id) =
        some { stu with balance := F64.sub b a } := by
    apply find_unique
    · rw [List.mem_map]
      exact ⟨stu, hmem, by simp [hid]⟩
    · simp [idMatches, hid]
    · intro x hx hp
      rw [List.mem_map] at hx
      obtain ⟨y, hy, rfl⟩ := hx
      by_cases hys : y.id = s
      · have := huniq y hy hys
        subst this
        simp [hys]
      · have : ¬ (s = y.id) := fun h => hys h.symm
        simp [idMatches, hys, this, hcast] at hp
  have ht1 : (JsVal.num (.fin (s : ℚ))).truthy = true := by simp [JsVal.truthy, hsq]
  have ht2 : (JsVal.num a).truthy = true := by simp [JsVal.truthy, ha]
  have hins : insertPayment E st (bind (.num (.fin (s : ℚ)))) (bind (.num a))
      (bind (JsVal.undefined.orElse (.str "cash"))) (bind (JsVal.undefined.orElse (.str "")))
      (bind (JsVal.undefined.orElse (.str ""))) =
      some { st with payments := st.payments ++
        [⟨nextPaymentId st.payments, .num (.fin s), .num a, .text "cash", .text "",
          .text ""⟩] } := by
    have hany' := hany
    simp only [bind] at hany' ⊢
    simp [insertPayment, JsVal.orElse, JsVal.truthy, bind, hany', numericAffinity]
  refine ⟨?_, ?_, ?_⟩
  · unfold postPayments
    simp only [ht1, ht2, Bool.not_true, Bool.or_self, Bool.false_eq_true, if_false, hins]
    simp only [updateBalance, selectStudent, bind]
    rw [hmap, hfind]
  · intro d hd
    simp only [addStudentFields, balanceOrZero, hd]
    by_cases h0 : d = .fin 0 <;> simp [h0]
  · intro p q hp hq
    rw [hp, hq]
    rfl

/-- C1 at the seeded store: a payment of 50 for student 1, whose balance is
120, leaves the formatted balance "₵70.00"; a payment of `1e21` leaves
"₵-1e+21" and a payment of `0.005` leaves "₵120.00". -/
theorem C1_record_payment_witness :
    (seeded "" "").WF ∧
    (postPayments Engine.plain (seeded "" "")
      ⟨.num (.fin ((1 : ℕ) : ℚ)), .num (.fin 50), .undefined, .undefined, .undefined⟩).2 =
      .sent ⟨200, .payment true ⟨1, some "ADM001", "John Doe (Form 1)", "John Doe", "John Doe",
        some "Form 1", some "Mr. Doe", "₵70.00", "Overdue"⟩⟩ ∧
    (postPayments Engine.plain (seeded "" "")
      ⟨.num (.fin 1), .num (roundF64 (10 ^ 21)), .undefined, .undefined, .undefined⟩).2 =
      .sent ⟨200, .payment true ⟨1, some "ADM001", "John Doe (Form 1)", "John Doe", "John Doe",
        some "Form 1", some "Mr. Doe", "₵-1e+21", "Cleared"⟩⟩ ∧
    (postPayments Engine.plain (seeded "" "")
      ⟨.num (.fin 1), .num (roundF64 (5 / 1000)), .undefined, .undefined, .undefined⟩).2 =
      .sent ⟨200, .payment true ⟨1, some "ADM001", "John Doe (Form 1)", "John Doe", "John Doe",
        some "Form 1", some "Mr. Doe", "₵120.00", "Overdue"⟩⟩ := by
  have hwf : (seeded "" "").WF := by
    unfold Store.WF
    decide
  have h := C1_record_payment Engine.plain (seeded "" "")
    ⟨1, some "ADM001", "John Doe", some "Form 1", some "Mr. Doe", some (.fin 120)⟩ 1
    (.fin 120) (.fin 50) hwf (by simp [seeded, seedStudents]) rfl rfl (by decide!)
  refine ⟨hwf, ?_, by decide!, by decide!⟩
  rw [h.1]
  decide!

/-- C2: when `studentId` or `amount` is absent from the body, the handler
answers HTTP 400 with `{error: "studentId and amount required"}` and the store
is unchanged (no payment row, no balance change). -/
theorem C2_missing_field (E : Engine) (st : Store) (body : PaymentBody)
    (h : body.studentId = .undefined ∨ body.amount = .undefined) :
    postPayments E st body = (st, .sent ⟨400, .error "studentId and amount required"⟩) := by
  apply postPayments_falsy
  rcases h with h | h
  · left; rw [h]; rfl
  · right; rw [h]; rfl

/-- C2 at the seeded store, with `amount` omitted. -/
theorem C2_missing_field_witness :
    postPayments Engine.plain (seeded "" "") ⟨.num (.fin 1), .undefined, .undefined, .undefined, .undefined⟩ =
      (seeded "" "", .sent ⟨400, .error "studentId and amount required"⟩) :=
  C2_missing_field Engine.plain (seeded "" "") ⟨.num (.fin 1), .undefined, .undefined, .undefined, .undefined⟩
    (Or.inr rfl)

/-- C3 (as stated) fails: after three payments of 0.1 for student 6 (seed
balance 10) the stored balance is the double 9.700000000000001, which is not 10
minus the sum of the three amounts, neither exactly nor after rounding that
difference to a double (9.7, one step below). -/
theorem C3_counterexample :
    Reachable Engine.plain "" ""
      (step Engine.plain (step Engine.plain (step Engine.plain (seeded "" "")
        (.postPayments ⟨.num (.fin 6), .num (roundF64 (1 / 10)), .undefined, .undefined, .undefined⟩))
        (.postPayments ⟨.num (.fin 6), .num (roundF64 (1 / 10)), .undefined, .undefined, .undefined⟩))
        (.postPayments ⟨.num (.fin 6), .num (roundF64 (1 / 10)), .undefined, .undefined, .undefined⟩)) ∧
    ((step Engine.plain (step Engine.plain (step Engine.plain (seeded "" "")
        (.postPayments ⟨.num (.fin 6), .num (roundF64 (1 / 10)), .undefined, .undefined, .undefined⟩))
        (.postPayments ⟨.num (.fin 6), .num (roundF64 (1 / 10)), .undefined, .undefined, .undefined⟩))
        (.postPayments ⟨.num (.fin 6), .num (roundF64 (1 / 10)), .undefined, .undefined, .undefined⟩)).students.map
        (fun x => x.balance)) =
      [some (.fin 120), some (.fin 60), some (.fin 0), some (.fin (61 / 2)), some (.fin 250),
        some (.fin (5460614548186727 / 2 ^ 49))] ∧
    exactBalance Engine.plain
      (step Engine.plain (step Engine.plain (step Engine.plain (seeded "" "")
        (.postPayments ⟨.num (.fin 6), .num (roundF64 (1 / 10)), .undefined, .undefined, .undefined⟩))
        (.postPayments ⟨.num (.fin 6), .num (roundF64 (1 / 10)), .undefined, .undefined, .undefined⟩))
        (.postPayments ⟨.num (.fin 6), .num (roundF64 (1 / 10)), .undefined, .undefined, .undefined⟩)).payments 6 =
      some (.fin (10 - 3 * (3602879701896397 / 2 ^ 55))) ∧
    roundF64 (10 - 3 * (3602879701896397 / 2 ^ 55)) = .fin (5460614548186726 / 2 ^ 49) ∧
    ¬ ExactBalanceInvariant Engine.plain
      (step Engine.plain (step Engine.plain (step Engine.plain (seeded "" "")
        (.postPayments ⟨.num (.fin 6), .num (roundF64 (1 / 10)), .undefined, .undefined, .undefined⟩))
        (.postPayments ⟨.num (.fin 6), .num (roundF64 (1 / 10)), .undefined, .undefined, .undefined⟩))
        (.postPayments ⟨.num (.fin 6), .num (roundF64 (1 / 10)), .undefined, .undefined, .undefined⟩)) := by
  refine ⟨Reachable.step _ _ (Reachable.step _ _ (Reachable.step _ _ Reachable.seed)),
    by decide!, by decide!, by decide!, ?_⟩
  unfold ExactBalanceInvariant
  decide!

/-- C3 (amended): in every store reachable from the seeded one by calls of the
route handlers, each student's balance is the seed balance of that student with
the amounts of the payment rows of that student subtracted one after another,
oldest first, each difference rounded to a double; whenever none of these
subtractions rounds, it is the seed balance minus the sum of those amounts. -/
theorem C3_balance_invariant (E : Engine) (h1 h2 : String) (st : Store)
    (h : Reachable E h1 h2 st) :
    RunningBalanceInvariant E st ∧
    ∀ x ∈ st.students, ∀ (b0 : ℚ) (l : List ℚ), seedBalance x.id = some (.fin b0) →
      (paymentsOf st.payments x.id).map (fun p => amountNumber E p.amount) =
        l.map (fun a => some (.fin a)) →
      exactRun b0 l = true → x.balance = some (.fin (b0 - l.sum)) := by
  have hrun : RunningBalanceInvariant E st := by
    induction h with
    | seed => exact runningInvariant_seeded E h1 h2
    | step st r _ ih => exact runningInvariant_step E st r ih
  refine ⟨hrun, ?_⟩
  intro x hx b0 l hb hl hex
  rw [hrun x hx, hb, hl]
  exact decrementAll_exact b0 l hex

/-- C3 (amended) after one recorded payment of 50 for student 1 on the seeded
store: the stored balance is 120 - 50 = 70. -/
theorem C3_balance_invariant_witness :
    Reachable Engine.plain "" "" (step Engine.plain (seeded "" "")
      (.postPayments ⟨.num (.fin 1), .num (.fin 50), .undefined, .undefined, .undefined⟩)) ∧
    RunningBalanceInvariant Engine.plain (step Engine.plain (seeded "" "")
      (.postPayments ⟨.num (.fin 1), .num (.fin 50), .undefined, .undefined, .undefined⟩)) ∧
    (step Engine.plain (seeded "" "")
      (.postPayments ⟨.num (.fin 1), .num (.fin 50), .undefined, .undefined, .undefined⟩)).students.map
        (fun x => x.balance) =
      [some (.fin 70), some (.fin 60), some (.fin 0), some (.fin (61 / 2)), some (.fin 250),
        some (.fin 10)] ∧
    (⟨1, some "ADM001", "John Doe", some "Form 1", some "Mr. Doe", some (.fin 70)⟩ : Student).balance =
      some (.fin (120 - [(50 : ℚ)].sum)) :=
  ⟨Reachable.step _ _ Reachable.seed,
   (C3_balance_invariant Engine.plain "" "" _ (Reachable.step _ _ Reachable.seed)).1,
   by decide!,
   (C3_balance_invariant Engine.plain "" ""
      (step Engine.plain (seeded "" "")
        (.postPayments ⟨.num (.fin 1), .num (.fin 50), .undefined, .undefined, .undefined⟩))
      (Reachable.step _ _ Reachable.seed)).2
     ⟨1, some "ADM001", "John Doe", some "Form 1", some "Mr. Doe", some (.fin 70)⟩
     (by decide!) 120 [50] (by decide!) (by decide!) (by decide!)⟩

/-- C4 fails on the code: on the seeded store, `POST /api/payments` with
`studentId: 999` (no such student) and `amount: 5` inserts payment row 1 with
`student_id` 999, changes no student, and then throws instead of responding;
the reached store breaks the referential invariant. -/
theorem C4_orphan_payment (E : Engine) (h1 h2 : String) :
    postPayments E (seeded h1 h2)
        ⟨.num (.fin 999), .num (.fin 5), .undefined, .undefined, .undefined⟩ =
      ({ seeded h1 h2 with
          payments := [⟨1, .num (.fin 999), .num (.fin 5), .text "cash", .text "", .text ""⟩] },
        .threw) ∧
    Reachable E h1 h2 (step E (seeded h1 h2)
      (.postPayments ⟨.num (.fin 999), .num (.fin 5), .undefined, .undefined, .undefined⟩)) ∧
    ¬ ReferentialInvariant E (step E (seeded h1 h2)
      (.postPayments ⟨.num (.fin 999), .num (.fin 5), .undefined, .undefined, .undefined⟩)) := by
  have hrun : postPayments E (seeded h1 h2)
      ⟨.num (.fin 999), .num (.fin 5), .undefined, .undefined, .undefined⟩ =
      ({ seeded h1 h2 with
          payments := [⟨1, .num (.fin 999), .num (.fin 5), .text "cash", .text "", .text ""⟩] },
        .threw) := by
    simp [postPayments, JsVal.truthy, JsVal.orElse, bind, insertPayment, seeded, updateBalance,
      selectStudent, seedStudents, idMatches, nextPaymentId, numericAffinity]
  refine ⟨hrun, Reachable.step _ _ Reachable.seed, ?_⟩
  simp only [step, hrun]
  intro hinv
  obtain ⟨x, hx, hm⟩ :=
    hinv ⟨1, .num (.fin 999), .num (.fin 5), .text "cash", .text "", .text ""⟩ (by simp)
  simp only [seeded, seedStudents, List.mem_cons, List.mem_singleton, List.not_mem_nil,
    or_false] at hx
  rcases hx with h | h | h | h | h | h <;> subst h <;> simp [idMatches] at hm

/-- With `PRAGMA foreign_keys` on, the same handler inserts nothing when the
`studentId` matches no student: the `INSERT` fails and the store is unchanged. -/
theorem postPayments_foreignKeys_on (E : Engine) (st : Store) (body : PaymentBody)
    (hfk : st.foreignKeys = true) (h1 : body.studentId.truthy = true)
    (h2 : body.amount.truthy = true)
    (hno : ∀ x ∈ st.students, idMatches E (bind body.studentId) x.id = false) :
    postPayments E st body = (st, .threw) := by
  have hany : (st.students.any (fun x => idMatches E (bind body.studentId) x.id)) = false := by
    rw [List.any_eq_false]
    intro x hx
    simp [hno x hx]
  have hne : (bind body.studentId != SqlVal.null) = true := by
    simpa using truthy_bind_ne_null body.studentId h1
  unfold postPayments
  simp [h1, h2, insertPayment, hfk, hany, hne]

/-! ## Claims about the student search and its alias -/

theorem anySuffix_self (f : List Char → Bool) (s : List Char) (h : f s = true) :
    anySuffix f s = true := by
  cases s with
  | nil => simpa [anySuffix] using h
  | cons c t => simp [anySuffix, h]

theorem anySuffix_isEmpty (s : List Char) :
    anySuffix (fun x => x.isEmpty) s = true := by
  induction s with
  | nil => simp [anySuffix]
  | cons c t ih => simp [anySuffix, ih]

theorem likeMatch_percent_percent (s : List Char) : likeMatch ['%', '%'] s = true := by
  have h1 : ∀ t, likeMatch ['%'] t = true := fun t => by
    simp [likeMatch, anySuffix_isEmpty]
  simp only [likeMatch, if_true]
  exact anySuffix_self _ s (h1 s)

theorem insertByName_mem (x y : Student) (l : List Student) :
    y ∈ insertByName x l ↔ y = x ∨ y ∈ l := by
  induction l with
  | nil => simp [insertByName]
  | cons z t ih =>
    simp only [insertByName]
    split
    · simp only [List.mem_cons, ih]
      tauto
    · simp only [List.mem_cons]

theorem insertByName_length (x : Student) (l : List Student) :
    (insertByName x l).length = l.length + 1 := by
  induction l with
  | nil => simp [insertByName]
  | cons z t ih =>
    simp only [insertByName]
    split
    · simp [ih]
    · simp

theorem foldr_insertByName (l : List Student) :
    (∀ y, y ∈ l.foldr (fun x acc => insertByName x acc) [] ↔ y ∈ l) ∧
    (l.foldr (fun x acc => insertByName x acc) []).length = l.length := by
  induction l with
  | nil => simp
  | cons z t ih =>
    simp only [List.foldr_cons]
    refine ⟨fun y => ?_, ?_⟩
    · rw [insertByName_mem, ih.1 y]; simp
    · rw [insertByName_length, ih.2]; simp

/-- `ORDER BY name` keeps every row. -/
theorem orderByName_perm (l : List Student) :
    (∀ y, y ∈ orderByName l ↔ y ∈ l) ∧ (orderByName l).length = l.length := by
  unfold orderByName
  obtain ⟨h1, h2⟩ := foldr_insertByName l.reverse
  exact ⟨fun y => by rw [h1 y]; simp, by rw [h2]; simp⟩

/-- C5 (as stated) fails: on the seeded table the query "%" returns all six
students, among them John Doe, whose name and admission number contain no
percent sign. -/
theorem C5_counterexample :
    (getStudents (seeded "" "") ⟨none, some "%"⟩).rows.length = 6 ∧
    (⟨1, some "ADM001", "John Doe", some "Form 1", some "Mr. Doe", some (.fin 120)⟩ : Student) ∈
      (seeded "" "").students ∧
    addStudentFields ⟨1, some "ADM001", "John Doe", some "Form 1", some "Mr. Doe",
      some (.fin 120)⟩ ∈ (getStudents (seeded "" "") ⟨none, some "%"⟩).rows ∧
    '%' ∉ "John Doe".data ∧ '%' ∉ "ADM001".data := by
  decide!

/-- C5 (amended): for every student table, when the search text is "%" (given
as `query` or as `q`), its percent sign is removed (not escaped) before the
text is wrapped into the `LIKE` pattern; the pattern is "%%", which every name
matches, so the response is the one of the blank query: the first 30 students
by name.  In a table of at most 30 rows every student is returned. -/
theorem C5_percent_query (st : Store) (qy : StudentsQuery) (h : qy.pick = "%") :
    removePercent (jsTrim qy.pick.data) = [] ∧
    getStudents st qy = getStudents st ⟨none, none⟩ ∧
    getStudents st qy =
      .sent ⟨200, .students (((orderByName st.students).take 30).map addStudentFields)⟩ ∧
    (st.students.length ≤ 30 →
      ∀ x ∈ st.students, addStudentFields x ∈ (getStudents st qy).rows) := by
  have ht : jsTrim "%".data = ['%'] := by decide
  have hp0 : (⟨none, none⟩ : StudentsQuery).pick = "" := by decide
  have ht0 : jsTrim "".data = [] := by decide
  have hr : removePercent ['%'] = [] := by decide
  have hfilter : st.students.filter (fun x =>
      likeMatch ['%', '%'] x.name.data || likeColumn ['%', '%'] x.admission_no) = st.students := by
    rw [List.filter_eq_self]
    intro x _
    simp [likeMatch_percent_percent]
  have hmain : getStudents st qy =
      .sent ⟨200, .students (((orderByName st.students).take 30).map addStudentFields)⟩ := by
    simp only [getStudents, h, ht, hr, List.nil_append]
    rw [hfilter]
    simp
  refine ⟨by rw [h, ht, hr], ?_, hmain, ?_⟩
  · rw [hmain]
    simp only [getStudents, hp0, ht0, if_true]
  · intro hlen x hx
    rw [hmain]
    simp only [Outcome.rows]
    have hall : (orderByName st.students).take 30 = orderByName st.students :=
      List.take_of_length_le (by rw [(orderByName_perm st.students).2]; exact hlen)
    rw [hall]
    exact List.mem_map_of_mem _ (((orderByName_perm st.students).1 x).mpr hx)

/-- C5 (amended) on the seeded table, with the text "%" given as `query` and
as `q`: both responses are the blank query's, and John Doe is among the
rows. -/
theorem C5_percent_query_witness :
    getStudents (seeded "" "") ⟨some "%", none⟩ = getStudents (seeded "" "") ⟨none, none⟩ ∧
    getStudents (seeded "" "") ⟨none, some "%"⟩ = getStudents (seeded "" "") ⟨none, none⟩ ∧
    addStudentFields ⟨1, some "ADM001", "John Doe", some "Form 1", some "Mr. Doe",
      some (.fin 120)⟩ ∈ (getStudents (seeded "" "") ⟨some "%", none⟩).rows :=
  ⟨(C5_percent_query (seeded "" "") ⟨some "%", none⟩ (by decide)).2.1,
   (C5_percent_query (seeded "" "") ⟨none, some "%"⟩ (by decide)).2.1,
   (C5_percent_query (seeded "" "") ⟨some "%", none⟩ (by decide)).2.2.2 (by decide)
     ⟨1, some "ADM001", "John Doe", some "Form 1", some "Mr. Doe", some (.fin 120)⟩
     (by decide!)⟩

theorem indexOf_none (l : List Char) (h : '?' ∉ l) : indexOf '?' l = none := by
  induction l with
  | nil => rfl
  | cons c t ih =>
    have hc : c ≠ '?' := fun e => h (by simp [e])
    have ht : '?' ∉ t := fun e => h (List.mem_cons_of_mem _ e)
    simp [indexOf, hc, ih ht]

theorem indexOf_append (pre post : List Char) (h : '?' ∉ pre) :
    indexOf '?' (pre ++ '?' :: post) = some pre.length := by
  induction pre with
  | nil => simp [indexOf]
  | cons c t ih =>
    have hc : c ≠ '?' := fun e => h (by simp [e])
    have ht : '?' ∉ t := fun e => h (List.mem_cons_of_mem _ e)
    simp [indexOf, hc, ih ht]

theorem url_split (l : List Char) :
    '?' ∉ l ∨ ∃ pre post, l = pre ++ '?' :: post ∧ '?' ∉ pre := by
  induction l with
  | nil => left; simp
  | cons c t ih =>
    by_cases hc : c = '?'
    · right; exact ⟨[], t, by simp [hc], by simp⟩
    · rcases ih with h | ⟨pre, post, h, hp⟩
      · left
        intro hm
        rcases List.mem_cons.mp hm with e | e
        · exact hc e.symm
        · exact h e
      · right
        refine ⟨c :: pre, post, by simp [h], ?_⟩
        intro hm
        rcases List.mem_cons.mp hm with e | e
        · exact hc e.symm
        · exact hp e

theorem url_parts_none (l : List Char) (h : '?' ∉ l) :
    pathname l = l ∧ fromQuestionMark l = [] ∧ queryString l = [] := by
  simp [pathname, fromQuestionMark, queryString, indexOf_none l h]

theorem url_parts_split (pre post : List Char) (h : '?' ∉ pre) :
    pathname (pre ++ '?' :: post) = pre ∧
    fromQuestionMark (pre ++ '?' :: post) = '?' :: post ∧
    queryString (pre ++ '?' :: post) = post := by
  simp [pathname, fromQuestionMark, queryString, indexOf_append pre post h]

theorem typeaheadUrl_data (url : String) :
    (typeaheadUrl url).data = "/api/students".data ++ fromQuestionMark url.data := by
  simp [typeaheadUrl, String.data_append]

theorem typeaheadUrl_parts (url : String) :
    pathname (typeaheadUrl url).data = "/api/students".data ∧
    queryString (typeaheadUrl url).data = queryString url.data := by
  have hs : '?' ∉ "/api/students".data := by decide
  rw [typeaheadUrl_data]
  rcases url_split url.data with h | ⟨pre, post, h, hp⟩
  · obtain ⟨_, h2, h3⟩ := url_parts_none url.data h
    rw [h2, h3, List.append_nil]
    exact ⟨(url_parts_none _ hs).1, (url_parts_none _ hs).2.2⟩
  · obtain ⟨_, h2, h3⟩ := url_parts_split pre post hp
    rw [h, h2, h3]
    exact ⟨(url_parts_split _ post hs).1, (url_parts_split _ post hs).2.2⟩

theorem pathIs_typeahead_not_students (p : List Char)
    (h : pathIs "/api/typeahead" p = true) : pathIs "/api/students" p = false := by
  simp only [pathIs, Bool.or_eq_true, beq_iff_eq] at h
  simp only [pathIs]
  rcases h with h | h <;> rw [h] <;> decide

/-- C10: for every store and every request URL whose path is `/api/typeahead`,
the alias rewrites the URL to "/api/students" followed by the text from the
first `?` onward (nothing when there is no `?`; no part of the query string is
lost), and the router's answer is the answer of `/api/students` for that
rewritten URL: the students handler run on the original query string. -/
theorem C10_typeahead_alias (parse : String → StudentsQuery) (st : Store) (url : String)
    (fuel : ℕ) (h : pathIs "/api/typeahead" (pathname url.data) = true) :
    (typeaheadUrl url).data = "/api/students".data ++ fromQuestionMark url.data ∧
    pathname url.data ++ fromQuestionMark url.data = url.data ∧
    queryString (typeaheadUrl url).data = queryString url.data ∧
    routerHandle parse st (fuel + 2) ⟨url, none⟩ =
      routerHandle parse st (fuel + 1) ⟨typeaheadUrl url, none⟩ ∧
    routerHandle parse st (fuel + 2) ⟨url, none⟩ =
      .handled (getStudents st (parse (String.mk (queryString url.data)))) := by
  obtain ⟨hpath, hquery⟩ := typeaheadUrl_parts url
  have hnot := pathIs_typeahead_not_students _ h
  have hstud : pathIs "/api/students" "/api/students".data = true := by decide
  have hcat : pathname url.data ++ fromQuestionMark url.data = url.data := by
    simp only [pathname, fromQuestionMark]
    split <;> simp
  have hL : routerHandle parse st (fuel + 2) ⟨url, none⟩ =
      .handled (getStudents st (parse (String.mk (queryString url.data)))) := by
    simp [routerHandle, queryMiddleware, hnot, h, hpath, hstud]
  have hR : routerHandle parse st (fuel + 1) ⟨typeaheadUrl url, none⟩ =
      .handled (getStudents st (parse (String.mk (queryString url.data)))) := by
    simp [routerHandle, queryMiddleware, hpath, hstud, hquery]
  exact ⟨typeaheadUrl_data url, hcat, hquery, by rw [hL, hR], hL⟩

/-- C10 at `/api/typeahead?q=Mary` on the seeded store: the rewritten URL is
`/api/students?q=Mary` and both give the same answer. -/
theorem C10_typeahead_alias_witness :
    typeaheadUrl "/api/typeahead?q=Mary" = "/api/students?q=Mary" ∧
    routerHandle parseQOnly (seeded "" "") 2 ⟨"/api/typeahead?q=Mary", none⟩ =
      routerHandle parseQOnly (seeded "" "") 1 ⟨typeaheadUrl "/api/typeahead?q=Mary", none⟩ :=
  ⟨by decide,
   (C10_typeahead_alias parseQOnly (seeded "" "") "/api/typeahead?q=Mary" 0 (by decide)).2.2.2.1⟩

/-! ## Claims about authentication -/

/-- C8: a login whose email matches no user, and a login whose email matches a
user but whose password fails the hash comparison, get the identical response
HTTP 401 `{error: "invalid credentials"}`; a token is issued only when the user
exists and the comparison succeeds. -/
theorem C8_login (E : Engine) (L : AuthLib) (st : Store) (body : LoginBody) :
    ((∀ u ∈ st.users, emailMatches E (bind body.email) u.email = false) →
      postLogin E L st body = .sent ⟨401, .error "invalid credentials"⟩) ∧
    (∀ u pw hash, st.users.find? (fun u => emailMatches E (bind body.email) u.email) = some u →
      body.password = .str pw → u.password_hash = some hash → L.compareSync pw hash = false →
      postLogin E L st body = .sent ⟨401, .error "invalid credentials"⟩) ∧
    (∀ status tok info, postLogin E L st body = .sent ⟨status, .login tok info⟩ →
      ∃ u pw hash, st.users.find? (fun u => emailMatches E (bind body.email) u.email) = some u ∧
        body.password = .str pw ∧ u.password_hash = some hash ∧
        L.compareSync pw hash = true ∧ tok = L.sign (loginPayload u)) := by
  refine ⟨?_, ?_, ?_⟩
  · intro hno
    have : st.users.find? (fun u => emailMatches E (bind body.email) u.email) = none := by
      rw [List.find?_eq_none]
      intro u hu
      simp [hno u hu]
    simp [postLogin, this]
  · intro u pw hash hu hpw hh hc
    simp [postLogin, hu, hpw, hh, hc]
  · intro status tok info hres
    unfold postLogin at hres
    split at hres
    · simp at hres
    · rename_i u hu
      split at hres
      · rename_i pw hash hpw hh
        by_cases hc : L.compareSync pw hash = true
        · simp only [hc, Bool.not_true, Bool.false_eq_true, if_false] at hres
          injection hres with hres
          injection hres with _ hb
          injection hb with htok _
          exact ⟨u, pw, hash, hu, hpw, hh, hc, htok.symm⟩
        · have hc' : L.compareSync pw hash = false := by simpa using hc
          simp [hc'] at hres
      · simp at hres

/-- C8 on the seeded users: an unknown email and the admin's email with a wrong
password both get 401 "invalid credentials". -/
theorem C8_login_witness :
    postLogin Engine.plain AuthLib.sample (seeded "hash:password" "hash:password")
      ⟨.str "nobody@samaced.test", .str "password"⟩ =
      .sent ⟨401, .error "invalid credentials"⟩ ∧
    postLogin Engine.plain AuthLib.sample (seeded "hash:password" "hash:password")
      ⟨.str "admin@samaced.test", .str "wrong"⟩ =
      .sent ⟨401, .error "invalid credentials"⟩ :=
  ⟨(C8_login Engine.plain AuthLib.sample (seeded "hash:password" "hash:password")
      ⟨.str "nobody@samaced.test", .str "password"⟩).1 (by decide),
   (C8_login Engine.plain AuthLib.sample (seeded "hash:password" "hash:password")
      ⟨.str "admin@samaced.test", .str "wrong"⟩).2.1
      ⟨1, some "Admin", some "admin@samaced.test", some "hash:password", some "admin"⟩
      "wrong" "hash:password" (by decide) rfl rfl (by decide)⟩

/-- C9: on `/api/me` the response is 401 "Missing Authorization header" exactly
when the header is absent or does not start with "Bearer "; otherwise it is
401 "Invalid token" exactly when verifying the text after the 7-character
prefix fails; otherwise the handler returns the decoded claims unchanged. -/
theorem C9_me (L : AuthLib) (hdr : Option String) :
    (getMe L hdr = .sent ⟨401, .error "Missing Authorization header"⟩ ↔
      (hdr = none ∨ ∃ h, hdr = some h ∧ "Bearer ".data.isPrefixOf h.data = false)) ∧
    (∀ h, hdr = some h → "Bearer ".data.isPrefixOf h.data = true →
      (getMe L hdr = .sent ⟨401, .error "Invalid token"⟩ ↔
        L.verify (String.mk (h.data.drop 7)) = none) ∧
      (∀ user, L.verify (String.mk (h.data.drop 7)) = some user →
        getMe L hdr = .sent ⟨200, .claims user⟩)) := by
  have hempty : ∀ h : String, "Bearer ".data.isPrefixOf h.data = true → h ≠ "" := by
    intro h hp he
    subst he
    revert hp
    decide
  constructor
  · cases hdr with
    | none => simp [getMe, authMiddleware]
    | some h =>
      by_cases hp : "Bearer ".data.isPrefixOf h.data = true
      · have hne := hempty h hp
        cases hv : L.verify (String.mk (h.data.drop 7)) <;>
          simp [getMe, authMiddleware, hp, hne, hv]
      · have hp' : "Bearer ".data.isPrefixOf h.data = false := Bool.eq_false_iff.mpr hp
        simp only [getMe, authMiddleware, hp', Bool.not_false, Bool.or_true, if_true, true_iff]
        exact Or.inr ⟨h, rfl, hp'⟩
  · intro h hh hp
    subst hh
    have hne := hempty h hp
    constructor
    · cases hv : L.verify (String.mk (h.data.drop 7)) <;>
        simp [getMe, authMiddleware, hp, hne, hv]
    · intro user hv
      simp [getMe, authMiddleware, hp, hne, hv]

/-- C9 on a request carrying a valid bearer token: the decoded claims come
back. -/
theorem C9_me_witness :
    getMe AuthLib.sample (some "Bearer token") = .sent ⟨200, .claims [("id", .num (.fin 1))]⟩ :=
  ((C9_me AuthLib.sample (some "Bearer token")).2 "Bearer token" rfl (by decide)).2
    [("id", .num (.fin 1))] (by decide)

end Samaced
